import Mathlib

/-
Verification development for the CME monitor repository.

The definitions below are shallow embeddings of the contract-catalog
merge, the per-category retrieval, the indicator pipeline, the market
state classifier, the schema gate of the indicator routine and the
watched-symbol registry, translated from Getcmesymbols.py and
cme_monitor_app.py.  Numeric columns follow the IEEE conventions of the
underlying dataframe library: missing entries are not-a-number, and a
nonzero value divided by zero is an infinity.
-/

namespace CMEMonitor

/-- Futures contract record as returned by the catalog endpoint, with the
fields the repository reads through dict lookups (id, name, description).
An absent key is modelled with `none`; the empty string models a
present-but-falsy value. -/
structure Contract where
  id : Option String
  name : Option String
  description : Option String
deriving DecidableEq

/-- Python truthiness of an id value obtained from a dict lookup: an
absent key and the empty string are falsy, every other string is truthy. -/
def idTruthy : Option String → Bool
  | none => false
  | some s => !s.isEmpty

/-- Value of the name field with an empty-string default, modelling the
lookup used before the startswith test. -/
def nameOrEmpty (c : Contract) : String := c.name.getD ""

/-- Python startswith on strings: the second string is a literal prefix of
the first, tested character by character. -/
def pyStartsWith (s p : String) : Bool := p.data.isPrefixOf s.data

/-- Loop shared by merge_contract_lists and the per-category dedup: walk a
list, keeping a contract only when its id is truthy and not yet seen, and
recording the id as seen.  The `seen` argument models the Python id set. -/
def mergeGo (seen : List (Option String)) : List Contract → List Contract
  | [] => []
  | c :: rest =>
    if idTruthy c.id = true ∧ c.id ∉ seen then
      c :: mergeGo (c.id :: seen) rest
    else
      mergeGo seen rest

/-- Model of merge_contract_lists: return the second list when the first
is empty, the first when the second is empty, and otherwise the first list
followed by those contracts of the second list whose id is truthy and not
an id of the first list (nor of an earlier kept contract). -/
def merge_contract_lists (list1 list2 : List Contract) : List Contract :=
  if list1.isEmpty then list2
  else if list2.isEmpty then list1
  else list1 ++ mergeGo (list1.map (fun c => c.id)) list2

/-- One category of get_contracts_by_category: for each search string the
endpoint results are filtered to the contracts whose name literally starts
with that string, the filtered lists are concatenated in order, and the
concatenation is deduplicated by truthy id.  The search endpoint is an
oracle parameter (an empty result models both an empty answer and a
swallowed failure). -/
def categoryContracts (search : String → List Contract) (pfxs : List String) :
    List Contract :=
  mergeGo []
    ((pfxs.map (fun p =>
      if (search p).isEmpty then []
      else (search p).filter (fun c => pyStartsWith (nameOrEmpty c) p))).flatten)

/-- Model of SymbolManagerDialog.remove_symbol acting on the watched list:
the boolean records whether the last-item warning fired.  Removing a
present symbol from a registry of length at most one warns and leaves the
list unchanged; otherwise the first occurrence is removed; an absent
symbol leaves the list unchanged without a warning. -/
def remove_symbol (watched : List String) (s : String) : List String × Bool :=
  if s ∈ watched then
    if watched.length ≤ 1 then (watched, true)
    else (watched.erase s, false)
  else (watched, false)

/-- Model of SymbolManagerDialog.save_and_close: an empty registry is
rejected (nothing is persisted), otherwise the list is handed unchanged to
the persistence callback. -/
def save_and_close (watched : List String) : Option (List String) :=
  if watched.length = 0 then none else some watched

/-- Relation of sharing one truthy id. -/
def sameTruthyId (a b : Contract) : Prop := idTruthy a.id = true ∧ a.id = b.id

instance (a b : Contract) : Decidable (sameTruthyId a b) := by
  unfold sameTruthyId; infer_instance

/-- No two entries of the list carry the same truthy id. -/
def noDupIds (l : List Contract) : Prop :=
  l.Pairwise (fun a b => ¬ sameTruthyId a b)

instance (l : List Contract) : Decidable (noDupIds l) := by
  unfold noDupIds; infer_instance

/-! ### Lemmas about the merge loop -/

theorem mergeGo_eq_nil {seen : List (Option String)} {l : List Contract}
    (h : ∀ c ∈ l, c.id ∈ seen) : mergeGo seen l = [] := by
  induction l with
  | nil => rfl
  | cons c rest ih =>
    have hc : c.id ∈ seen := h c (by simp)
    simp only [mergeGo]
    rw [if_neg]
    · exact ih (fun d hd => h d (by simp [hd]))
    · intro hcontra
      exact hcontra.2 hc

theorem mergeGo_subset {l : List Contract} :
    ∀ {seen : List (Option String)} {c : Contract}, c ∈ mergeGo seen l →
      c ∈ l ∧ idTruthy c.id = true ∧ c.id ∉ seen := by
  induction l with
  | nil => intro seen c hc; simp [mergeGo] at hc
  | cons a rest ih =>
    intro seen c hc
    by_cases hcond : idTruthy a.id = true ∧ a.id ∉ seen
    · rw [mergeGo, if_pos hcond] at hc
      rcases List.mem_cons.mp hc with hh | ht
      · subst hh
        exact ⟨List.mem_cons_self _ _, hcond.1, hcond.2⟩
      · have := ih ht
        refine ⟨List.mem_cons_of_mem _ this.1, this.2.1, fun hmem => ?_⟩
        exact this.2.2 (List.mem_cons_of_mem _ hmem)
    · rw [mergeGo, if_neg hcond] at hc
      have := ih hc
      exact ⟨List.mem_cons_of_mem _ this.1, this.2⟩

theorem mergeGo_pairwise (l : List Contract) (seen : List (Option String)) :
    (mergeGo seen l).Pairwise (fun a b => ¬ sameTruthyId a b) := by
  induction l generalizing seen with
  | nil => simp [mergeGo]
  | cons a rest ih =>
    by_cases hcond : idTruthy a.id = true ∧ a.id ∉ seen
    · rw [mergeGo, if_pos hcond]
      refine List.Pairwise.cons ?_ (ih (a.id :: seen))
      intro b hb hsame
      have hbmem := mergeGo_subset hb
      exact hbmem.2.2 (by simp [hsame.2])
    · rw [mergeGo, if_neg hcond]
      exact ih seen

theorem find?_append_of_isSome {p : Contract → Bool} {l₁ : List Contract}
    (l₂ : List Contract) (h : (l₁.find? p).isSome) :
    (l₁ ++ l₂).find? p = l₁.find? p := by
  induction l₁ with
  | nil => simp at h
  | cons a t ih =>
    by_cases ha : p a = true
    · simp [List.find?, ha]
    · rw [List.find?] at h
      rw [List.cons_append, List.find?, List.find?]
      rw [Bool.not_eq_true] at ha
      rw [ha] at h ⊢
      exact ih h

/-! ### Claim C1: merge identities -/

/-- C1: the contract-list merge is an identity on empty inputs and
idempotent: merging a list with itself or with the empty list returns it
unchanged (hence with the original order and without new duplicate ids),
merging the empty list with B returns B, and when an id occurs in both
lists the first entry of the merged result carrying that id is the first
entry of the first list carrying it. -/
theorem merge_identities :
    (∀ A : List Contract, merge_contract_lists A A = A) ∧
    (∀ A : List Contract, merge_contract_lists A [] = A) ∧
    (∀ B : List Contract, merge_contract_lists [] B = B) ∧
    (∀ (A B : List Contract) (x : String), idTruthy (some x) = true →
      (∃ a ∈ A, a.id = some x) → (∃ b ∈ B, b.id = some x) →
      (merge_contract_lists A B).find? (fun c => c.id == some x) =
        A.find? (fun c => c.id == some x)) := by
  have hAA : ∀ A : List Contract, merge_contract_lists A A = A := by
    intro A
    cases A with
    | nil => rfl
    | cons a t =>
      rw [merge_contract_lists]
      rw [if_neg (by simp), if_neg (by simp)]
      rw [mergeGo_eq_nil (fun c hc => List.mem_map_of_mem _ hc)]
      simp
  have hA0 : ∀ A : List Contract, merge_contract_lists A [] = A := by
    intro A
    cases A with
    | nil => rfl
    | cons a t => rw [merge_contract_lists]; simp
  refine ⟨hAA, hA0, fun B => by cases B <;> rfl, ?_⟩
  intro A B x _ hxA _
  have hsome : (A.find? (fun c => c.id == some x)).isSome := by
    rw [List.find?_isSome]
    obtain ⟨a, haA, hax⟩ := hxA
    exact ⟨a, haA, by simp [hax]⟩
  by_cases hB0 : B = []
  · subst hB0; rw [hA0]
  · have hAne : A ≠ [] := by rintro rfl; simp at hxA
    obtain ⟨a, t, rfl⟩ := List.exists_cons_of_ne_nil hAne
    obtain ⟨b, u, rfl⟩ := List.exists_cons_of_ne_nil hB0
    rw [merge_contract_lists, if_neg (by simp), if_neg (by simp)]
    exact find?_append_of_isSome _ hsome

/-- Witness for C1: the tie on id 1 keeps the entry of the first list. -/
theorem merge_identities_witness :
    idTruthy (some "1") = true ∧
    (∃ a ∈ [Contract.mk (some "1") (some "ESZ5") none,
            Contract.mk (some "2") (some "NQZ5") none], a.id = some "1") ∧
    (∃ b ∈ [Contract.mk (some "1") (some "OTHER") none,
            Contract.mk (some "3") (some "GCZ5") none], b.id = some "1") ∧
    (merge_contract_lists
        [Contract.mk (some "1") (some "ESZ5") none,
         Contract.mk (some "2") (some "NQZ5") none]
        [Contract.mk (some "1") (some "OTHER") none,
         Contract.mk (some "3") (some "GCZ5") none]).find?
          (fun c => c.id == some "1") =
      ([Contract.mk (some "1") (some "ESZ5") none,
        Contract.mk (some "2") (some "NQZ5") none]).find?
          (fun c => c.id == some "1") :=
  ⟨by decide, by decide, by decide,
    merge_identities.2.2.2 _ _ "1" (by decide) (by decide) (by decide)⟩

/-! ### Claim C2: merge dedup -/

/-- Counterexample to C2 as stated: when the first input list itself holds
two entries with id 1, the merged result keeps both of them. -/
theorem merge_dedup_counterexample :
    ¬ noDupIds (merge_contract_lists
        [Contract.mk (some "1") (some "a") none,
         Contract.mk (some "1") (some "b") none]
        [Contract.mk (some "2") (some "c") none]) := by
  decide

/-- C2 (amended): when neither input list holds two entries sharing a
truthy id, neither does the merged result; duplicate ids already present
in an input list are preserved by the early-return and copy paths. -/
theorem merge_dedup_of_inputs_nodup (A B : List Contract)
    (hA : noDupIds A) (hB : noDupIds B) :
    noDupIds (merge_contract_lists A B) := by
  cases A with
  | nil => simpa [merge_contract_lists] using hB
  | cons a t =>
    cases B with
    | nil => simpa [merge_contract_lists] using hA
    | cons b u =>
      rw [merge_contract_lists, if_neg (by simp), if_neg (by simp)]
      rw [noDupIds, List.pairwise_append]
      refine ⟨hA, mergeGo_pairwise _ _, ?_⟩
      intro c hc d hd hsame
      have hdprop := mergeGo_subset hd
      exact hdprop.2.2 (hsame.2 ▸ List.mem_map_of_mem _ hc)

/-- Witness for the amended C2. -/
theorem merge_dedup_of_inputs_nodup_witness :
    noDupIds [Contract.mk (some "1") (some "a") none,
              Contract.mk none (some "b") none] ∧
    noDupIds [Contract.mk (some "1") (some "z") none,
              Contract.mk (some "2") (some "w") none] ∧
    noDupIds (merge_contract_lists
        [Contract.mk (some "1") (some "a") none,
         Contract.mk none (some "b") none]
        [Contract.mk (some "1") (some "z") none,
         Contract.mk (some "2") (some "w") none]) :=
  ⟨by decide, by decide,
    merge_dedup_of_inputs_nodup _ _ (by decide) (by decide)⟩

/-! ### Claim C10: falsy ids of the second list -/

/-- C10: for non-empty inputs the merged result is the first list kept
wholesale (every contract of A, in order, id or not) followed by extra
contracts all drawn from the second list and all carrying a truthy id, so
the merge pass never contributes a contract of B whose id is absent or
falsy. -/
theorem merge_keeps_first_skips_falsy (A B : List Contract)
    (hA : A ≠ []) (hB : B ≠ []) :
    ∃ extra, merge_contract_lists A B = A ++ extra ∧
      ∀ c ∈ extra, c ∈ B ∧ idTruthy c.id = true := by
  obtain ⟨a, t, rfl⟩ := List.exists_cons_of_ne_nil hA
  obtain ⟨b, u, rfl⟩ := List.exists_cons_of_ne_nil hB
  refine ⟨mergeGo ((a :: t).map (fun c => c.id)) (b :: u), ?_, ?_⟩
  · rw [merge_contract_lists, if_neg (by simp), if_neg (by simp)]
  · intro c hc
    exact ⟨(mergeGo_subset hc).1, (mergeGo_subset hc).2.1⟩

/-- Witness for C10: the id-less contract of the second list is dropped
while the id-less contract of the first list survives. -/
theorem merge_keeps_first_skips_falsy_witness :
    ∃ extra,
      merge_contract_lists
          [Contract.mk none (some "X") none]
          [Contract.mk none (some "Y") none,
           Contract.mk (some "5") (some "Z") none] =
        [Contract.mk none (some "X") none] ++ extra ∧
      ∀ c ∈ extra,
        c ∈ [Contract.mk none (some "Y") none,
             Contract.mk (some "5") (some "Z") none] ∧
        idTruthy c.id = true :=
  merge_keeps_first_skips_falsy _ _ (by decide) (by decide)

/-! ### Claim C7: category retrieval -/

/-- C7: every contract of a category result has a name starting with one
of the category search strings, and no two contracts of the result share
an id (all kept contracts carry a truthy id, and ids are pairwise
distinct). -/
theorem category_contracts_sound :
    ∀ (search : String → List Contract) (pfxs : List String),
      (∀ c ∈ categoryContracts search pfxs,
        ∃ p ∈ pfxs, pyStartsWith (nameOrEmpty c) p = true) ∧
      (categoryContracts search pfxs).Pairwise (fun a b => a.id ≠ b.id) := by
  intro search pfxs
  constructor
  · intro c hc
    have hraw := (mergeGo_subset hc).1
    rw [List.mem_flatten] at hraw
    obtain ⟨l, hl, hcl⟩ := hraw
    rw [List.mem_map] at hl
    obtain ⟨p, hp, rfl⟩ := hl
    refine ⟨p, hp, ?_⟩
    by_cases he : (search p).isEmpty
    · rw [if_pos he] at hcl; simp at hcl
    · rw [if_neg he] at hcl
      exact (List.mem_filter.mp hcl).2
  · refine (mergeGo_pairwise _ _).imp_of_mem ?_
    intro a b ha _ hnab hab
    exact hnab ⟨(mergeGo_subset ha).2.1, hab⟩

/-- Fixed search oracle used by the C7 witness. -/
def searchStub (p : String) : List Contract :=
  if p = "ES" then
    [Contract.mk (some "1") (some "ESZ5") none,
     Contract.mk (some "7") (some "ESM6") none,
     Contract.mk (some "8") (some "MESZ5") none]
  else []

/-- Witness for C7 at a concrete oracle, search string and contract. -/
theorem category_contracts_sound_witness :
    (∃ p ∈ ["ES"],
      pyStartsWith (nameOrEmpty (Contract.mk (some "1") (some "ESZ5") none)) p = true) ∧
    (categoryContracts searchStub ["ES"]).Pairwise (fun a b => a.id ≠ b.id) :=
  ⟨(category_contracts_sound searchStub ["ES"]).1 _ (by decide),
    (category_contracts_sound searchStub ["ES"]).2⟩

/-! ### Claim C9: watch registry -/

/-- C9: removing a symbol present in a registry of exactly one watched
instrument fires the last-item warning and returns the registry unchanged,
and whatever save_and_close persists has length at least one. -/
theorem remove_last_item_guard :
    (∀ (w : List String) (s : String), w.length = 1 → s ∈ w →
      remove_symbol w s = (w, true)) ∧
    (∀ (w p : List String), save_and_close w = some p → 1 ≤ p.length) := by
  constructor
  · intro w s hlen hmem
    rw [remove_symbol, if_pos hmem, if_pos (by omega)]
  · intro w p hsave
    rw [save_and_close] at hsave
    by_cases h0 : w.length = 0
    · rw [if_pos h0] at hsave; exact absurd hsave (by simp)
    · rw [if_neg h0] at hsave
      cases hsave
      omega

/-- Witness for C9 at a singleton registry. -/
theorem remove_last_item_guard_witness :
    ((["ESZ5"] : List String).length = 1 ∧ "ESZ5" ∈ (["ESZ5"] : List String) ∧
      remove_symbol ["ESZ5"] "ESZ5" = (["ESZ5"], true)) ∧
    (save_and_close ["NQZ5"] = some ["NQZ5"] ∧
      1 ≤ (["NQZ5"] : List String).length) :=
  ⟨⟨rfl, by decide, remove_last_item_guard.1 ["ESZ5"] "ESZ5" rfl (by decide)⟩,
    ⟨by decide, remove_last_item_guard.2 ["NQZ5"] ["NQZ5"] (by decide)⟩⟩

/-! ### Numeric values of the dataframe columns -/

/-- Scalar of a numeric dataframe column: not-a-number (the missing-value
marker), one of the two infinities, or a finite value modelled as an exact
rational. -/
inductive PFloat where
  | nan : PFloat
  | inf : PFloat
  | ninf : PFloat
  | num : ℚ → PFloat
deriving DecidableEq

/-- The missing-value test of the dataframe library: true exactly on
not-a-number; infinities count as present values. -/
def PFloat.isNA : PFloat → Bool
  | .nan => true
  | _ => false

/-- IEEE subtraction on column scalars. -/
def PFloat.sub : PFloat → PFloat → PFloat
  | .nan, _ => .nan
  | _, .nan => .nan
  | .inf, .inf => .nan
  | .inf, _ => .inf
  | .ninf, .ninf => .nan
  | .ninf, _ => .ninf
  | .num _, .inf => .ninf
  | .num _, .ninf => .inf
  | .num a, .num b => .num (a - b)

/-- IEEE division on column scalars: a nonzero finite value divided by
zero is a signed infinity, zero divided by zero is not-a-number. -/
def PFloat.div : PFloat → PFloat → PFloat
  | .nan, _ => .nan
  | _, .nan => .nan
  | .inf, .inf => .nan
  | .inf, .ninf => .nan
  | .ninf, .inf => .nan
  | .ninf, .ninf => .nan
  | .inf, .num b => if b < 0 then .ninf else .inf
  | .ninf, .num b => if b < 0 then .inf else .ninf
  | .num _, .inf => .num 0
  | .num _, .ninf => .num 0
  | .num a, .num b =>
    if b = 0 then (if a = 0 then .nan else if a < 0 then .ninf else .inf)
    else .num (a / b)

/-- IEEE multiplication on column scalars. -/
def PFloat.mul : PFloat → PFloat → PFloat
  | .nan, _ => .nan
  | _, .nan => .nan
  | .inf, .inf => .inf
  | .inf, .ninf => .ninf
  | .ninf, .inf => .ninf
  | .ninf, .ninf => .inf
  | .inf, .num b => if b = 0 then .nan else if b < 0 then .ninf else .inf
  | .ninf, .num b => if b = 0 then .nan else if b < 0 then .inf else .ninf
  | .num a, .inf => if a = 0 then .nan else if a < 0 then .ninf else .inf
  | .num a, .ninf => if a = 0 then .nan else if a < 0 then .inf else .ninf
  | .num a, .num b => .num (a * b)

/-- IEEE strict less-than on column scalars: any comparison with
not-a-number is false. -/
def PFloat.lt : PFloat → PFloat → Bool
  | .nan, _ => false
  | _, .nan => false
  | .ninf, .ninf => false
  | .ninf, _ => true
  | .inf, _ => false
  | .num _, .inf => true
  | .num _, .ninf => false
  | .num a, .num b => decide (a < b)

/-- Absolute value on column scalars. -/
def PFloat.abs : PFloat → PFloat
  | .nan => .nan
  | .inf => .inf
  | .ninf => .inf
  | .num a => .num |a|

/-! ### Market state classifier -/

/-- Model of MarketAnalyzer.determine_market_state with its built-in
thresholds: insufficient data when either input is missing, squeeze when
the volatility change is below -10 and the absolute rate of change below
2, trend start (direction by the sign of the rate of change) when the
volatility change is above 10 and the absolute rate of change above 3,
and range-bound otherwise. -/
def determine_market_state (chaikinVol roc : PFloat) : String × String :=
  if chaikinVol.isNA || roc.isNA then ("データ不足", "⚪")
  else if chaikinVol.lt (PFloat.num (-10)) && (PFloat.lt roc.abs (PFloat.num 2)) then
    ("スクイーズ(エネルギー蓄積)", "🟡")
  else if PFloat.lt (PFloat.num 10) chaikinVol && PFloat.lt (PFloat.num 3) roc.abs then
    ("トレンド開始(" ++ (if PFloat.lt (PFloat.num 0) roc then "上昇" else "下降") ++ ")", "🔴")
  else ("レンジ", "🟢")

/-! ### Indicator pipeline -/

/-- One bar row after field normalization, carrying the columns the
indicator computation reads: an integer timestamp and exact rational
prices. -/
structure Bar where
  time : Int
  high : ℚ
  low : ℚ
  close : ℚ
deriving DecidableEq

/-- Smoothing coefficient of an exponential moving average with span 10:
alpha = 2 / (span + 1). -/
def alphaSpan10 : ℚ := 2 / (10 + 1)

/-- Recursive exponential smoothing with adjust disabled: each output is
(1 - alpha) * previous + alpha * current. -/
def ewmGo (y : ℚ) : List ℚ → List ℚ
  | [] => []
  | x :: rest =>
    ((1 - alphaSpan10) * y + alphaSpan10 * x) ::
      ewmGo ((1 - alphaSpan10) * y + alphaSpan10 * x) rest

/-- Raw exponential-moving-average values with adjust disabled: the first
output equals the first input. -/
def ewmVals : List ℚ → List ℚ
  | [] => []
  | x :: rest => x :: ewmGo x rest

/-- Mask implementing the min_periods convention: position i of the
output is not-a-number until minp observations have been seen. -/
def maskGo (minp i : Nat) : List ℚ → List PFloat
  | [] => []
  | x :: rest =>
    (if i + 1 < minp then PFloat.nan else PFloat.num x) :: maskGo minp (i + 1) rest

/-- Model of the dataframe call ewm(span=10, adjust=False,
min_periods=10).mean() on a series without missing values: recursive
smoothing masked so that the first 9 positions are not-a-number. -/
def ewmMean10 (xs : List ℚ) : List PFloat := maskGo 10 0 (ewmVals xs)

/-- Model of Series.shift n: n not-a-number entries are prepended and the
series is truncated back to its original length. -/
def shiftP (n : Nat) (l : List PFloat) : List PFloat :=
  (List.replicate n PFloat.nan ++ l).take l.length

/-- The hl_range column: per-bar high minus low. -/
def hlRange (bars : List Bar) : List ℚ := bars.map (fun b => b.high - b.low)

/-- The ema_hl column of calculate_indicators. -/
def emaHl (bars : List Bar) : List PFloat := ewmMean10 (hlRange bars)

/-- Elementwise percentage change of a series against a shifted copy:
(current - shifted) / shifted * 100 under the IEEE column arithmetic. -/
def pctChangeVs (cur shifted : List PFloat) : List PFloat :=
  List.zipWith
    (fun a b => PFloat.mul (PFloat.div (PFloat.sub a b) b) (PFloat.num 100))
    cur shifted

/-- The chaikin_vol column: percentage change of ema_hl against its copy
shifted by 12. -/
def chaikinVolOf (bars : List Bar) : List PFloat :=
  pctChangeVs (emaHl bars) (shiftP 12 (emaHl bars))

/-- The close column lifted to column scalars. -/
def closeCol (bars : List Bar) : List PFloat := bars.map (fun b => PFloat.num b.close)

/-- The roc column: percentage change of close against its copy shifted
by 10. -/
def rocOf (bars : List Bar) : List PFloat :=
  pctChangeVs (closeCol bars) (shiftP 10 (closeCol bars))

/-- Stable insertion of a bar into a time-ascending list: the bar lands
after every already-placed bar whose time is not greater. -/
def insertByTime (b : Bar) : List Bar → List Bar
  | [] => [b]
  | x :: xs => if b.time < x.time then b :: x :: xs else x :: insertByTime b xs

/-- Time-ascending sort of the bar rows.  The source delegates to the
dataframe sort; the claims settled against this pipeline do not depend on
the order of rows with equal timestamps. -/
def sortBarsByTime (bars : List Bar) : List Bar :=
  bars.foldl (fun acc b => insertByTime b acc) []

/-- Model of MarketAnalyzer.calculate_indicators on normalized bar rows:
sort ascending by time, then compute the chaikin_vol and roc columns. -/
def calculate_indicators (bars : List Bar) : List Bar × List PFloat × List PFloat :=
  (sortBarsByTime bars, chaikinVolOf (sortBarsByTime bars), rocOf (sortBarsByTime bars))

/-- A dataframe at the granularity the schema logic observes: the column
labels of the raw payload together with the typed rows carried by the
recognized canonical columns. -/
structure DataF where
  cols : List String
  rows : List Bar

/-- Column-name normalization of calculate_indicators: every column label
present in the alias table is renamed to its canonical name; other labels
are kept. -/
def aliasName (c : String) : String :=
  if c = "t" then "time"
  else if c = "timestamp" then "time"
  else if c = "datetime" then "time"
  else if c = "date" then "time"
  else if c = "o" then "open"
  else if c = "h" then "high"
  else if c = "l" then "low"
  else if c = "c" then "close"
  else if c = "v" then "volume"
  else c

/-- Candidate time columns probed in order by calculate_indicators. -/
def timeCandidates : List String := ["time", "t", "timestamp", "datetime", "date"]

/-- Required value columns checked by calculate_indicators. -/
def requiredCols : List String := ["high", "low", "close"]

/-- Failure of the guarded indicator computation: a schemaError is one of
the two explicit raises of the routine itself; a duplicateLabel is the
ValueError the dataframe library raises when an operation meets a column
label that the alias renaming has duplicated (at the sort for a
duplicated time label, at the hl_range assignment for a duplicated high
or low label, at the roc assignment for a duplicated close label). -/
inductive CalcError where
  | schemaError : String → CalcError
  | duplicateLabel : String → CalcError
deriving DecidableEq

/-- Model of calculate_indicators including its failure behaviour, with
the raise sites in source order: rename every column through the alias
table (distinct raw labels aliasing to the same canonical name yield a
duplicated label), fail with a schemaError when no time column is found,
sort — which fails with a duplicate-label error when the time label is
not unique — fail with a schemaError when a required column is missing,
then build hl_range — which fails with a duplicate-label error when high
or low is not unique — and roc — which fails likewise for close — and
otherwise return the computed frame (the numeric arithmetic itself is
total). -/
def calculate_indicators_checked (df : DataF) :
    Except CalcError (List Bar × List PFloat × List PFloat) :=
  let cols2 := df.cols.map aliasName
  match timeCandidates.find? (fun c => decide (c ∈ cols2)) with
  | none => Except.error (CalcError.schemaError "time column not found")
  | some _ =>
    if 1 < cols2.count "time" then
      Except.error (CalcError.duplicateLabel "time")
    else if (requiredCols.filter (fun c => decide (c ∉ cols2))).isEmpty then
      if 1 < cols2.count "high" ∨ 1 < cols2.count "low" then
        Except.error (CalcError.duplicateLabel "hl_range")
      else if 1 < cols2.count "close" then
        Except.error (CalcError.duplicateLabel "roc")
      else Except.ok (calculate_indicators df.rows)
    else Except.error (CalcError.schemaError "missing required columns")

/-! ### Claim C3: market state classification -/

theorem dms_num (cv r : ℚ) :
    determine_market_state (PFloat.num cv) (PFloat.num r) =
      if cv < -10 ∧ |r| < 2 then ("スクイーズ(エネルギー蓄積)", "🟡")
      else if 10 < cv ∧ 3 < |r| then
        ("トレンド開始(" ++ (if 0 < r then "上昇" else "下降") ++ ")", "🔴")
      else ("レンジ", "🟢") := by
  rw [determine_market_state]
  simp only [PFloat.isNA, PFloat.lt, PFloat.abs, Bool.or_self, Bool.and_eq_true,
    decide_eq_true_eq, if_false, Bool.false_eq_true]

/-- C3: the classifier returns the insufficient-data row when either
input is missing; on finite inputs it returns the squeeze row exactly
when the volatility change is strictly below -10 and the absolute rate of
change strictly below 2, the trend-start rows exactly when the
volatility change is strictly above 10 and the absolute rate of change
strictly above 3 (upward for a positive rate of change, downward
otherwise), and the range row in every remaining case; the two boundary
inputs behave as stated. -/
theorem market_state_classification :
    (∀ r : PFloat, determine_market_state PFloat.nan r = ("データ不足", "⚪")) ∧
    (∀ cv : PFloat, determine_market_state cv PFloat.nan = ("データ不足", "⚪")) ∧
    (∀ cv r : ℚ,
      determine_market_state (PFloat.num cv) (PFloat.num r) =
          ("スクイーズ(エネルギー蓄積)", "🟡") ↔ cv < -10 ∧ |r| < 2) ∧
    (∀ cv r : ℚ,
      determine_market_state (PFloat.num cv) (PFloat.num r) =
          ("トレンド開始(上昇)", "🔴") ↔ 10 < cv ∧ 3 < |r| ∧ 0 < r) ∧
    (∀ cv r : ℚ,
      determine_market_state (PFloat.num cv) (PFloat.num r) =
          ("トレンド開始(下降)", "🔴") ↔ 10 < cv ∧ 3 < |r| ∧ ¬ 0 < r) ∧
    (∀ cv r : ℚ, ¬ (cv < -10 ∧ |r| < 2) → ¬ (10 < cv ∧ 3 < |r|) →
      determine_market_state (PFloat.num cv) (PFloat.num r) = ("レンジ", "🟢")) ∧
    determine_market_state (PFloat.num (-100001 / 10000)) (PFloat.num 0) =
      ("スクイーズ(エネルギー蓄積)", "🟡") ∧
    determine_market_state (PFloat.num (-99999 / 10000)) (PFloat.num 0) =
      ("レンジ", "🟢") := by
  refine ⟨?_, ?_, ?_, ?_, ?_, ?_, ?_, ?_⟩
  · intro r; rfl
  · intro cv; cases cv <;> rfl
  · intro cv r
    rw [dms_num]
    by_cases h1 : cv < -10 ∧ |r| < 2
    · rw [if_pos h1]; simp [h1]
    · rw [if_neg h1]
      by_cases h2 : 10 < cv ∧ 3 < |r|
      · rw [if_pos h2]
        constructor
        · intro he
          have hs2 : ("🔴" : String) = "🟡" := congrArg Prod.snd he
          exact absurd hs2 (by decide)
        · intro hr; exact absurd hr h1
      · rw [if_neg h2]
        constructor
        · intro he
          have hs2 : ("🟢" : String) = "🟡" := congrArg Prod.snd he
          exact absurd hs2 (by decide)
        · intro hr; exact absurd hr h1
  · intro cv r
    rw [dms_num]
    by_cases h1 : cv < -10 ∧ |r| < 2
    · rw [if_pos h1]
      constructor
      · intro he
        have hs1 : ("スクイーズ(エネルギー蓄積)" : String) = "トレンド開始(上昇)" :=
          congrArg Prod.fst he
        exact absurd hs1 (by decide)
      · intro hr; exfalso; linarith [h1.1, hr.1]
    · rw [if_neg h1]
      by_cases h2 : 10 < cv ∧ 3 < |r|
      · rw [if_pos h2]
        by_cases h3 : 0 < r
        · rw [if_pos h3]
          exact ⟨fun _ => ⟨h2.1, h2.2, h3⟩, fun _ => rfl⟩
        · rw [if_neg h3]
          constructor
          · intro he
            have hs1 : ("トレンド開始(" ++ "下降" ++ ")" : String) = "トレンド開始(上昇)" :=
              congrArg Prod.fst he
            exact absurd hs1 (by decide)
          · intro hr; exact absurd hr.2.2 h3
      · rw [if_neg h2]
        constructor
        · intro he
          have hs1 : ("レンジ" : String) = "トレンド開始(上昇)" := congrArg Prod.fst he
          exact absurd hs1 (by decide)
        · intro hr; exact absurd ⟨hr.1, hr.2.1⟩ h2
  · intro cv r
    rw [dms_num]
    by_cases h1 : cv < -10 ∧ |r| < 2
    · rw [if_pos h1]
      constructor
      · intro he
        have hs1 : ("スクイーズ(エネルギー蓄積)" : String) = "トレンド開始(下降)" :=
          congrArg Prod.fst he
        exact absurd hs1 (by decide)
      · intro hr; exfalso; linarith [h1.1, hr.1]
    · rw [if_neg h1]
      by_cases h2 : 10 < cv ∧ 3 < |r|
      · rw [if_pos h2]
        by_cases h3 : 0 < r
        · rw [if_pos h3]
          constructor
          · intro he
            have hs1 : ("トレンド開始(" ++ "上昇" ++ ")" : String) = "トレンド開始(下降)" :=
              congrArg Prod.fst he
            exact absurd hs1 (by decide)
          · intro hr; exact absurd h3 hr.2.2
        · rw [if_neg h3]
          exact ⟨fun _ => ⟨h2.1, h2.2, h3⟩, fun _ => rfl⟩
      · rw [if_neg h2]
        constructor
        · intro he
          have hs1 : ("レンジ" : String) = "トレンド開始(下降)" := congrArg Prod.fst he
          exact absurd hs1 (by decide)
        · intro hr; exact absurd ⟨hr.1, hr.2.1⟩ h2
  · intro cv r h1 h2
    rw [dms_num, if_neg h1, if_neg h2]
  · rw [dms_num, if_pos (by constructor <;> norm_num)]
  · have h1 : ¬ ((-99999 / 10000 : ℚ) < -10 ∧ |(0 : ℚ)| < 2) := by
      intro h; have := h.1; norm_num at this
    have h2 : ¬ ((10 : ℚ) < -99999 / 10000 ∧ 3 < |(0 : ℚ)|) := by
      intro h; have := h.1; norm_num at this
    rw [dms_num, if_neg h1, if_neg h2]

/-- Witness for C3 at a finite input falling in the range-bound case. -/
theorem market_state_classification_witness :
    (¬ ((0 : ℚ) < -10 ∧ |(0 : ℚ)| < 2) ∧ ¬ ((10 : ℚ) < 0 ∧ 3 < |(0 : ℚ)|)) ∧
    determine_market_state (PFloat.num 0) (PFloat.num 0) = ("レンジ", "🟢") :=
  ⟨⟨by norm_num, by norm_num⟩,
    market_state_classification.2.2.2.2.2.1 0 0 (by norm_num) (by norm_num)⟩

/-! ### Length and index lemmas for the indicator columns -/

theorem ewmGo_length (y : ℚ) (l : List ℚ) : (ewmGo y l).length = l.length := by
  induction l generalizing y with
  | nil => rfl
  | cons x rest ih => simp [ewmGo, ih]

theorem ewmVals_length (xs : List ℚ) : (ewmVals xs).length = xs.length := by
  cases xs with
  | nil => rfl
  | cons x rest => simp [ewmVals, ewmGo_length]

theorem maskGo_length (m : Nat) (l : List ℚ) :
    ∀ i, (maskGo m i l).length = l.length := by
  induction l with
  | nil => intro i; rfl
  | cons x rest ih => intro i; simp [maskGo, ih]

theorem emaHl_length (bars : List Bar) : (emaHl bars).length = bars.length := by
  simp [emaHl, ewmMean10, maskGo_length, ewmVals_length, hlRange]

theorem shiftP_length (n : Nat) (l : List PFloat) : (shiftP n l).length = l.length := by
  simp [shiftP]

theorem pctChangeVs_length (a b : List PFloat) :
    (pctChangeVs a b).length = min a.length b.length := by
  simp [pctChangeVs]

theorem chaikinVolOf_length (bars : List Bar) :
    (chaikinVolOf bars).length = bars.length := by
  simp [chaikinVolOf, pctChangeVs_length, shiftP_length, emaHl_length]

theorem closeCol_length (bars : List Bar) : (closeCol bars).length = bars.length := by
  simp [closeCol]

theorem rocOf_length (bars : List Bar) : (rocOf bars).length = bars.length := by
  simp [rocOf, pctChangeVs_length, shiftP_length, closeCol_length]

theorem maskGo_getD (m : Nat) (l : List ℚ) :
    ∀ (i j : Nat), j < l.length →
      (maskGo m i l).getD j PFloat.nan =
        if i + j + 1 < m then PFloat.nan else PFloat.num (l.getD j 0) := by
  induction l with
  | nil => intro i j h; simp at h
  | cons x rest ih =>
    intro i j h
    cases j with
    | zero => simp [maskGo]
    | succ j =>
      rw [maskGo, List.getD_cons_succ, List.getD_cons_succ]
      rw [ih (i + 1) j (by simpa using h)]
      have harith : i + 1 + j + 1 = i + (j + 1) + 1 := by omega
      rw [harith]

theorem shiftP_getD (n : Nat) (l : List PFloat) (i : Nat) (h : i < l.length) :
    (shiftP n l).getD i PFloat.nan =
      if i < n then PFloat.nan else l.getD (i - n) PFloat.nan := by
  rw [List.getD_eq_getElem?_getD, shiftP, List.getElem?_take_of_lt h]
  by_cases hn : i < n
  · rw [List.getElem?_append_left (by simpa using hn)]
    rw [if_pos hn, List.getElem?_replicate_of_lt hn]
    rfl
  · rw [List.getElem?_append_right (by simpa using Nat.le_of_not_lt hn)]
    rw [if_neg hn, List.getD_eq_getElem?_getD]
    simp

theorem pctChangeVs_getD (a b : List PFloat) (i : Nat)
    (ha : i < a.length) (hb : i < b.length) :
    (pctChangeVs a b).getD i PFloat.nan =
      PFloat.mul (PFloat.div
        (PFloat.sub (a.getD i PFloat.nan) (b.getD i PFloat.nan))
        (b.getD i PFloat.nan)) (PFloat.num 100) := by
  rw [List.getD_eq_getElem?_getD, pctChangeVs, List.getElem?_zipWith]
  rw [List.getElem?_eq_getElem ha, List.getElem?_eq_getElem hb]
  rw [List.getD_eq_getElem?_getD, List.getD_eq_getElem?_getD]
  rw [List.getElem?_eq_getElem ha, List.getElem?_eq_getElem hb]
  rfl

theorem pct_shift_getD (cur : List PFloat) (n i : Nat) (h : i < cur.length) :
    (pctChangeVs cur (shiftP n cur)).getD i PFloat.nan =
      PFloat.mul (PFloat.div
        (PFloat.sub (cur.getD i PFloat.nan)
          (if i < n then PFloat.nan else cur.getD (i - n) PFloat.nan))
        (if i < n then PFloat.nan else cur.getD (i - n) PFloat.nan))
        (PFloat.num 100) := by
  rw [pctChangeVs_getD cur _ i h (by rw [shiftP_length]; exact h)]
  rw [shiftP_getD n cur i h]

theorem chaikinVol_getD (bars : List Bar) (i : Nat) (h : i < bars.length) :
    (chaikinVolOf bars).getD i PFloat.nan =
      PFloat.mul (PFloat.div
        (PFloat.sub ((emaHl bars).getD i PFloat.nan)
          (if i < 12 then PFloat.nan else (emaHl bars).getD (i - 12) PFloat.nan))
        (if i < 12 then PFloat.nan else (emaHl bars).getD (i - 12) PFloat.nan))
        (PFloat.num 100) := by
  have he : i < (emaHl bars).length := by rw [emaHl_length]; exact h
  exact pct_shift_getD (emaHl bars) 12 i he

theorem rocOf_getD (bars : List Bar) (i : Nat) (h : i < bars.length) :
    (rocOf bars).getD i PFloat.nan =
      PFloat.mul (PFloat.div
        (PFloat.sub ((closeCol bars).getD i PFloat.nan)
          (if i < 10 then PFloat.nan else (closeCol bars).getD (i - 10) PFloat.nan))
        (if i < 10 then PFloat.nan else (closeCol bars).getD (i - 10) PFloat.nan))
        (PFloat.num 100) := by
  have hc : i < (closeCol bars).length := by rw [closeCol_length]; exact h
  exact pct_shift_getD (closeCol bars) 10 i hc

theorem PFloat.sub_nan (x : PFloat) : PFloat.sub x PFloat.nan = PFloat.nan := by
  cases x <;> rfl

theorem PFloat.div_nan (x : PFloat) : PFloat.div x PFloat.nan = PFloat.nan := by
  cases x <;> rfl

theorem PFloat.nan_mul (y : PFloat) : PFloat.mul PFloat.nan y = PFloat.nan := by
  cases y <;> rfl

theorem insertByTime_length (b : Bar) (l : List Bar) :
    (insertByTime b l).length = l.length + 1 := by
  induction l with
  | nil => rfl
  | cons x xs ih =>
    rw [insertByTime]
    by_cases hb : b.time < x.time
    · rw [if_pos hb]; rfl
    · rw [if_neg hb]; simp [ih]

theorem sortBarsByTime_length (bars : List Bar) :
    (sortBarsByTime bars).length = bars.length := by
  suffices h : ∀ acc : List Bar,
      (bars.foldl (fun a b => insertByTime b a) acc).length = acc.length + bars.length by
    simpa using h []
  induction bars with
  | nil => intro acc; simp
  | cons b rest ih =>
    intro acc
    rw [List.foldl_cons, ih (insertByTime b acc), insertByTime_length,
      List.length_cons]
    omega

/-! ### Claim C5: min_periods mask and short series -/

theorem emaHl_getD_eq (bars : List Bar) (i : Nat) (h : i < bars.length) :
    (emaHl bars).getD i PFloat.nan =
      if i + 1 < 10 then PFloat.nan
      else PFloat.num ((ewmVals (hlRange bars)).getD i 0) := by
  have hlen : i < (ewmVals (hlRange bars)).length := by
    rw [ewmVals_length]; simpa [hlRange] using h
  rw [emaHl, ewmMean10, maskGo_getD 10 _ 0 i hlen]
  simp

/-- C5: the span-10 exponential moving average of the range column is
missing at the first 9 positions and present from position 9 on, and on a
bar series of length 5 both indicator columns of the computed frame are
missing at every position. -/
theorem ema_min_periods_and_short_series :
    (∀ (bars : List Bar) (i : Nat), i < 9 → i < (emaHl bars).length →
      (emaHl bars).getD i PFloat.nan = PFloat.nan) ∧
    (∀ (bars : List Bar) (i : Nat), 9 ≤ i → i < (emaHl bars).length →
      (emaHl bars).getD i PFloat.nan ≠ PFloat.nan) ∧
    (∀ bars : List Bar, bars.length = 5 → ∀ i, i < 5 →
      (calculate_indicators bars).2.1.getD i PFloat.nan = PFloat.nan ∧
      (calculate_indicators bars).2.2.getD i PFloat.nan = PFloat.nan) := by
  refine ⟨?_, ?_, ?_⟩
  · intro bars i h9 hlen
    rw [emaHl_getD_eq bars i (by rwa [emaHl_length] at hlen)]
    rw [if_pos (by omega)]
  · intro bars i h9 hlen
    rw [emaHl_getD_eq bars i (by rwa [emaHl_length] at hlen)]
    rw [if_neg (by omega)]
    simp
  · intro bars hlen i hi
    have hslen : (sortBarsByTime bars).length = 5 := by
      rw [sortBarsByTime_length, hlen]
    have his : i < (sortBarsByTime bars).length := by omega
    constructor
    · show (chaikinVolOf (sortBarsByTime bars)).getD i PFloat.nan = PFloat.nan
      rw [chaikinVol_getD _ i his, if_pos (by omega)]
      rw [PFloat.sub_nan, PFloat.div_nan, PFloat.nan_mul]
    · show (rocOf (sortBarsByTime bars)).getD i PFloat.nan = PFloat.nan
      rw [rocOf_getD _ i his, if_pos (by omega)]
      rw [PFloat.sub_nan, PFloat.div_nan, PFloat.nan_mul]

/-- Ten identical bars used by the C5 witness. -/
def wbars10 : List Bar :=
  [Bar.mk 0 2 1 5, Bar.mk 1 2 1 5, Bar.mk 2 2 1 5, Bar.mk 3 2 1 5,
   Bar.mk 4 2 1 5, Bar.mk 5 2 1 5, Bar.mk 6 2 1 5, Bar.mk 7 2 1 5,
   Bar.mk 8 2 1 5, Bar.mk 9 2 1 5]

/-- Five identical bars used by the C5 witness. -/
def wbars5 : List Bar :=
  [Bar.mk 0 2 1 5, Bar.mk 1 2 1 5, Bar.mk 2 2 1 5, Bar.mk 3 2 1 5,
   Bar.mk 4 2 1 5]

/-- Witness for C5: the mask at positions 0 and 9 of a 10-bar series, and
both indicator columns at position 0 of a 5-bar series. -/
theorem ema_min_periods_and_short_series_witness :
    ((0 : Nat) < 9 ∧ 0 < (emaHl wbars10).length ∧
      (emaHl wbars10).getD 0 PFloat.nan = PFloat.nan) ∧
    (9 ≤ (9 : Nat) ∧ 9 < (emaHl wbars10).length ∧
      (emaHl wbars10).getD 9 PFloat.nan ≠ PFloat.nan) ∧
    (wbars5.length = 5 ∧ (0 : Nat) < 5 ∧
      (calculate_indicators wbars5).2.1.getD 0 PFloat.nan = PFloat.nan ∧
      (calculate_indicators wbars5).2.2.getD 0 PFloat.nan = PFloat.nan) := by
  have h10 : (emaHl wbars10).length = 10 := by rw [emaHl_length]; rfl
  refine ⟨⟨by omega, by omega, ?_⟩, ⟨by omega, by omega, ?_⟩, ⟨rfl, by omega, ?_⟩⟩
  · exact ema_min_periods_and_short_series.1 wbars10 0 (by omega) (by omega)
  · exact ema_min_periods_and_short_series.2.1 wbars10 9 (by omega) (by omega)
  · exact ema_min_periods_and_short_series.2.2 wbars5 rfl 0 (by omega)

/-! ### Claim C4: the chaikin_vol formula and its missing-value region -/

theorem PFloat.nan_sub (y : PFloat) : PFloat.sub PFloat.nan y = PFloat.nan := by
  cases y <;> rfl

theorem PFloat.nan_div (y : PFloat) : PFloat.div PFloat.nan y = PFloat.nan := by
  cases y <;> rfl

theorem PFloat.sub_num_num (a b : ℚ) :
    PFloat.sub (PFloat.num a) (PFloat.num b) = PFloat.num (a - b) := rfl

theorem PFloat.div_num_num (a b : ℚ) :
    PFloat.div (PFloat.num a) (PFloat.num b) =
      if b = 0 then
        (if a = 0 then PFloat.nan else if a < 0 then PFloat.ninf else PFloat.inf)
      else PFloat.num (a / b) := rfl

theorem PFloat.mul_num_num (a b : ℚ) :
    PFloat.mul (PFloat.num a) (PFloat.num b) = PFloat.num (a * b) := rfl

theorem PFloat.mul_inf_num (b : ℚ) :
    PFloat.mul PFloat.inf (PFloat.num b) =
      if b = 0 then PFloat.nan else if b < 0 then PFloat.ninf else PFloat.inf := rfl

theorem PFloat.mul_ninf_num (b : ℚ) :
    PFloat.mul PFloat.ninf (PFloat.num b) =
      if b = 0 then PFloat.nan else if b < 0 then PFloat.inf else PFloat.ninf := rfl

/-- Missing-value characterization of the percentage-change cell built
from two operands that are each missing or finite: the cell is missing
exactly when an operand is missing or both the current value and the
shifted value (hence numerator and denominator) are zero; a nonzero value
over a zero denominator yields an infinity, which is not missing. -/
theorem pct_formula_nan_iff (a d : PFloat)
    (ha : a = PFloat.nan ∨ ∃ q, a = PFloat.num q)
    (hd : d = PFloat.nan ∨ ∃ q, d = PFloat.num q) :
    (PFloat.mul (PFloat.div (PFloat.sub a d) d) (PFloat.num 100) = PFloat.nan ↔
      a = PFloat.nan ∨ d = PFloat.nan ∨
        (a = PFloat.num 0 ∧ d = PFloat.num 0)) := by
  rcases ha with rfl | ⟨x, rfl⟩
  · rw [PFloat.nan_sub, PFloat.nan_div, PFloat.nan_mul]
    simp
  · rcases hd with rfl | ⟨y, rfl⟩
    · rw [PFloat.sub_nan, PFloat.div_nan, PFloat.nan_mul]
      simp
    · rw [PFloat.sub_num_num, PFloat.div_num_num]
      by_cases hy : y = 0
      · subst hy
        rw [if_pos rfl]
        by_cases hx : x - 0 = 0
        · have hx0 : x = 0 := by linarith
          rw [if_pos hx, PFloat.nan_mul]
          simp [hx0]
        · have hx0 : x ≠ 0 := by intro hc; exact hx (by rw [hc]; ring)
          rw [if_neg hx]
          by_cases hxl : x - 0 < 0
          · rw [if_pos hxl, PFloat.mul_ninf_num]
            rw [if_neg (by norm_num), if_neg (by norm_num)]
            simp [hx0]
          · rw [if_neg hxl, PFloat.mul_inf_num]
            rw [if_neg (by norm_num), if_neg (by norm_num)]
            simp [hx0]
      · rw [if_neg hy, PFloat.mul_num_num]
        simp [hy]

theorem emaHl_getD_shape (bars : List Bar) (i : Nat) :
    (emaHl bars).getD i PFloat.nan = PFloat.nan ∨
      ∃ q, (emaHl bars).getD i PFloat.nan = PFloat.num q := by
  by_cases h : i < bars.length
  · rw [emaHl_getD_eq bars i h]
    by_cases h10 : i + 1 < 10
    · left; rw [if_pos h10]
    · right; exact ⟨_, by rw [if_neg h10]⟩
  · left
    rw [List.getD_eq_getElem?_getD, List.getElem?_eq_none]
    · rfl
    · rw [emaHl_length]; omega

/-- C4 (amended): every cell of the chaikin_vol column equals
(ema_range at i minus ema_range at i-12) over ema_range at i-12 times
100 under the IEEE column arithmetic, and the cell is missing exactly
when one of the two ema_range operands is missing or both the operands
(hence the numerator and the zero denominator) are zero; when the
denominator is zero and the numerator is not, the cell is an infinity
and therefore not missing. -/
theorem chaikin_vol_formula (bars : List Bar) (i : Nat)
    (h : i < (chaikinVolOf bars).length) :
    (chaikinVolOf bars).getD i PFloat.nan =
      PFloat.mul (PFloat.div
        (PFloat.sub ((emaHl bars).getD i PFloat.nan)
          (if i < 12 then PFloat.nan else (emaHl bars).getD (i - 12) PFloat.nan))
        (if i < 12 then PFloat.nan else (emaHl bars).getD (i - 12) PFloat.nan))
        (PFloat.num 100) ∧
    ((chaikinVolOf bars).getD i PFloat.nan = PFloat.nan ↔
      (emaHl bars).getD i PFloat.nan = PFloat.nan ∨
      (if i < 12 then PFloat.nan else (emaHl bars).getD (i - 12) PFloat.nan) =
        PFloat.nan ∨
      ((emaHl bars).getD i PFloat.nan = PFloat.num 0 ∧
        (if i < 12 then PFloat.nan else (emaHl bars).getD (i - 12) PFloat.nan) =
          PFloat.num 0)) := by
  have hb : i < bars.length := by rwa [chaikinVolOf_length] at h
  have h1 := chaikinVol_getD bars i hb
  refine ⟨h1, ?_⟩
  rw [h1]
  apply pct_formula_nan_iff
  · exact emaHl_getD_shape bars i
  · by_cases h12 : i < 12
    · rw [if_pos h12]; exact Or.inl rfl
    · rw [if_neg h12]; exact emaHl_getD_shape bars (i - 12)

/-- Witness for the amended C4 at position 0 of a 5-bar series. -/
theorem chaikin_vol_formula_witness :
    0 < (chaikinVolOf wbars5).length ∧
    ((chaikinVolOf wbars5).getD 0 PFloat.nan =
      PFloat.mul (PFloat.div
        (PFloat.sub ((emaHl wbars5).getD 0 PFloat.nan)
          (if (0 : Nat) < 12 then PFloat.nan
           else (emaHl wbars5).getD (0 - 12) PFloat.nan))
        (if (0 : Nat) < 12 then PFloat.nan
         else (emaHl wbars5).getD (0 - 12) PFloat.nan))
        (PFloat.num 100) ∧
    ((chaikinVolOf wbars5).getD 0 PFloat.nan = PFloat.nan ↔
      (emaHl wbars5).getD 0 PFloat.nan = PFloat.nan ∨
      (if (0 : Nat) < 12 then PFloat.nan
       else (emaHl wbars5).getD (0 - 12) PFloat.nan) = PFloat.nan ∨
      ((emaHl wbars5).getD 0 PFloat.nan = PFloat.num 0 ∧
        (if (0 : Nat) < 12 then PFloat.nan
         else (emaHl wbars5).getD (0 - 12) PFloat.nan) = PFloat.num 0))) := by
  have h : 0 < (chaikinVolOf wbars5).length := by
    rw [chaikinVolOf_length]; decide
  exact ⟨h, chaikin_vol_formula wbars5 0 h⟩

/-- Twenty-two bars whose first ten bars have zero high-low range and
whose remaining twelve bars have range one: the ema_range value at
position 9 is exactly zero while the value at position 21 is positive. -/
def bars22 : List Bar :=
  [Bar.mk 0 1 1 1, Bar.mk 1 1 1 1, Bar.mk 2 1 1 1, Bar.mk 3 1 1 1,
   Bar.mk 4 1 1 1, Bar.mk 5 1 1 1, Bar.mk 6 1 1 1, Bar.mk 7 1 1 1,
   Bar.mk 8 1 1 1, Bar.mk 9 1 1 1,
   Bar.mk 10 1 0 1, Bar.mk 11 1 0 1, Bar.mk 12 1 0 1, Bar.mk 13 1 0 1,
   Bar.mk 14 1 0 1, Bar.mk 15 1 0 1, Bar.mk 16 1 0 1, Bar.mk 17 1 0 1,
   Bar.mk 18 1 0 1, Bar.mk 19 1 0 1, Bar.mk 20 1 0 1, Bar.mk 21 1 0 1]

theorem ewmGo_zeros (l : List ℚ) :
    ∀ k : Nat, ewmGo 0 (List.replicate k 0 ++ l) = List.replicate k 0 ++ ewmGo 0 l := by
  intro k
  induction k with
  | zero => simp
  | succ k ih =>
    rw [List.replicate_succ, List.cons_append, ewmGo]
    have hv : (1 - alphaSpan10) * 0 + alphaSpan10 * 0 = 0 := by ring
    rw [hv, ih]
    rfl

theorem ewmGo_pos :
    ∀ l : List ℚ, (∀ x ∈ l, 0 < x) → ∀ y : ℚ, 0 ≤ y → ∀ z ∈ ewmGo y l, 0 < z := by
  intro l
  induction l with
  | nil => intro _ y _ z hz; simp [ewmGo] at hz
  | cons x rest ih =>
    intro hpos y hy z hz
    have hx : 0 < x := hpos x (by simp)
    have h1 : 0 ≤ (1 - alphaSpan10) * y :=
      mul_nonneg (by rw [alphaSpan10]; norm_num) hy
    have h2 : 0 < alphaSpan10 * x :=
      mul_pos (by rw [alphaSpan10]; norm_num) hx
    have hv : 0 < (1 - alphaSpan10) * y + alphaSpan10 * x := by linarith
    rw [ewmGo] at hz
    rcases List.mem_cons.mp hz with rfl | hzrest
    · exact hv
    · exact ih (fun w hw => hpos w (by simp [hw])) _ (le_of_lt hv) z hzrest

theorem hlRange_bars22 :
    hlRange bars22 = List.replicate 10 0 ++ List.replicate 12 1 := by
  rw [bars22, hlRange]
  simp only [List.map_cons, List.map_nil]
  norm_num [List.replicate]

theorem ewmVals_bars22 :
    ewmVals (hlRange bars22) =
      0 :: (List.replicate 9 0 ++ ewmGo 0 (List.replicate 12 1)) := by
  rw [hlRange_bars22]
  rw [show List.replicate 10 (0 : ℚ) = 0 :: List.replicate 9 0 from rfl]
  rw [List.cons_append, ewmVals, ewmGo_zeros]

theorem replicate_append_getD_left {k j : Nat} (l : List ℚ) (h : j < k) :
    (List.replicate k (0 : ℚ) ++ l).getD j 0 = 0 := by
  rw [List.getD_eq_getElem?_getD, List.getElem?_append_left (by simpa using h),
    List.getElem?_replicate_of_lt h]
  rfl

theorem replicate_append_getD_right {k j : Nat} (l : List ℚ) (h : k ≤ j) :
    (List.replicate k (0 : ℚ) ++ l).getD j 0 = l.getD (j - k) 0 := by
  rw [List.getD_eq_getElem?_getD, List.getElem?_append_right (by simpa using h),
    List.getD_eq_getElem?_getD]
  simp

/-- C4 counterexample as stated by the claim: at position 21 of the
22-bar series bars22 the denominator ema_range at position 9 is exactly
zero, yet the chaikin_vol cell is positive infinity — a present value,
not a missing one. -/
theorem chaikin_vol_zero_denominator_counterexample :
    (emaHl bars22).getD 9 PFloat.nan = PFloat.num 0 ∧
    (chaikinVolOf bars22).getD 21 PFloat.nan = PFloat.inf ∧
    (chaikinVolOf bars22).getD 21 PFloat.nan ≠ PFloat.nan := by
  have hlen : bars22.length = 22 := by rw [bars22]; rfl
  have hone : ∀ x ∈ List.replicate 12 (1 : ℚ), 0 < x := by
    intro x hx
    rw [List.eq_of_mem_replicate hx]
    norm_num
  have hglen : (ewmGo 0 (List.replicate 12 (1 : ℚ))).length = 12 := by
    rw [ewmGo_length]; rfl
  -- the raw smoothed value at position 21 is positive
  have hq : 0 < (ewmGo 0 (List.replicate 12 (1 : ℚ))).getD 11 0 := by
    have hmem : (ewmGo 0 (List.replicate 12 (1 : ℚ))).getD 11 0 ∈
        ewmGo 0 (List.replicate 12 (1 : ℚ)) := by
      rw [List.getD_eq_getElem?_getD, List.getElem?_eq_getElem (by omega)]
      exact List.getElem_mem _
    exact ewmGo_pos _ hone 0 le_rfl _ hmem
  have h9 : (emaHl bars22).getD 9 PFloat.nan = PFloat.num 0 := by
    rw [emaHl_getD_eq bars22 9 (by omega), if_neg (by omega), ewmVals_bars22]
    rw [List.getD_cons_succ, replicate_append_getD_left _ (by omega)]
  have h21 : (emaHl bars22).getD 21 PFloat.nan =
      PFloat.num ((ewmGo 0 (List.replicate 12 (1 : ℚ))).getD 11 0) := by
    rw [emaHl_getD_eq bars22 21 (by omega), if_neg (by omega), ewmVals_bars22]
    rw [List.getD_cons_succ, replicate_append_getD_right _ (by omega)]
  refine ⟨h9, ?_, ?_⟩
  · rw [chaikinVol_getD bars22 21 (by omega), if_neg (by omega)]
    rw [show (21 : Nat) - 12 = 9 from rfl, h9, h21]
    rw [PFloat.sub_num_num, PFloat.div_num_num]
    rw [if_pos rfl, if_neg (by linarith), if_neg (by linarith)]
    rw [PFloat.mul_inf_num, if_neg (by norm_num), if_neg (by norm_num)]
  · rw [chaikinVol_getD bars22 21 (by omega), if_neg (by omega)]
    rw [show (21 : Nat) - 12 = 9 from rfl, h9, h21]
    rw [PFloat.sub_num_num, PFloat.div_num_num]
    rw [if_pos rfl, if_neg (by linarith), if_neg (by linarith)]
    rw [PFloat.mul_inf_num, if_neg (by norm_num), if_neg (by norm_num)]
    simp

/-! ### Claim C8: the schema gate -/

/-- C8 counterexample: the raw columns t and timestamp both normalize to
time, so this frame satisfies the claim's precondition (a recognizable
time field and all of high, low, close present after normalization), yet
the computation raises the duplicate-label error of the sort instead of
returning — the no-raise clause of the claim is false of the program. -/
theorem schema_gate_counterexample :
    ((∃ c ∈ timeCandidates,
        c ∈ (["t", "timestamp", "high", "low", "close"].map aliasName)) ∧
      (∀ c ∈ requiredCols,
        c ∈ (["t", "timestamp", "high", "low", "close"].map aliasName))) ∧
    calculate_indicators_checked
        (DataF.mk ["t", "timestamp", "high", "low", "close"] []) =
      Except.error (CalcError.duplicateLabel "time") :=
  ⟨⟨by decide, by decide⟩, rfl⟩

/-- C8 (amended): the routine fails with one of its own schema errors
exactly when no candidate time column is present after alias renaming,
or the time label is unique and a required column is missing; when the
renaming leaves the time, high, low and close labels free of duplicates,
the original characterization holds: some error exactly on a missing
time field or missing required column, and the computed frame without
raising otherwise; but when the inputs that pass the schema checks carry
a duplicated time, high, low or close label, the computation still
raises — a duplicate-label error from the dataframe library, not a
schema error. -/
theorem schema_error_characterization (df : DataF) :
    ((∃ e, calculate_indicators_checked df =
        Except.error (CalcError.schemaError e)) ↔
      (¬ ∃ c ∈ timeCandidates, c ∈ df.cols.map aliasName) ∨
      ((df.cols.map aliasName).count "time" ≤ 1 ∧
        ∃ c ∈ requiredCols, c ∉ df.cols.map aliasName)) ∧
    ((df.cols.map aliasName).count "time" ≤ 1 →
      (df.cols.map aliasName).count "high" ≤ 1 →
      (df.cols.map aliasName).count "low" ≤ 1 →
      (df.cols.map aliasName).count "close" ≤ 1 →
      (((∃ e, calculate_indicators_checked df = Except.error e) ↔
        (¬ ∃ c ∈ timeCandidates, c ∈ df.cols.map aliasName) ∨
        (∃ c ∈ requiredCols, c ∉ df.cols.map aliasName)) ∧
       ((∃ c ∈ timeCandidates, c ∈ df.cols.map aliasName) ∧
          (∀ c ∈ requiredCols, c ∈ df.cols.map aliasName) →
        calculate_indicators_checked df =
          Except.ok (calculate_indicators df.rows)))) ∧
    ((∃ c ∈ timeCandidates, c ∈ df.cols.map aliasName) →
      (∀ c ∈ requiredCols, c ∈ df.cols.map aliasName) →
      (1 < (df.cols.map aliasName).count "time" ∨
        1 < (df.cols.map aliasName).count "high" ∨
        1 < (df.cols.map aliasName).count "low" ∨
        1 < (df.cols.map aliasName).count "close") →
      ∃ l, calculate_indicators_checked df =
        Except.error (CalcError.duplicateLabel l)) := by
  have hunfold : calculate_indicators_checked df =
      match timeCandidates.find? (fun c => decide (c ∈ df.cols.map aliasName)) with
      | none => Except.error (CalcError.schemaError "time column not found")
      | some _ =>
        if 1 < (df.cols.map aliasName).count "time" then
          Except.error (CalcError.duplicateLabel "time")
        else if (requiredCols.filter
            (fun c => decide (c ∉ df.cols.map aliasName))).isEmpty then
          if 1 < (df.cols.map aliasName).count "high" ∨
              1 < (df.cols.map aliasName).count "low" then
            Except.error (CalcError.duplicateLabel "hl_range")
          else if 1 < (df.cols.map aliasName).count "close" then
            Except.error (CalcError.duplicateLabel "roc")
          else Except.ok (calculate_indicators df.rows)
        else Except.error (CalcError.schemaError "missing required columns") := rfl
  cases hf : timeCandidates.find? (fun c => decide (c ∈ df.cols.map aliasName)) with
  | none =>
    have hno : ¬ ∃ c ∈ timeCandidates, c ∈ df.cols.map aliasName := by
      rintro ⟨c, hct, hcm⟩
      have hfc := List.find?_eq_none.mp hf c hct
      rw [decide_eq_true_eq] at hfc
      exact hfc hcm
    have hchk : calculate_indicators_checked df =
        Except.error (CalcError.schemaError "time column not found") := by
      rw [hunfold, hf]
    refine ⟨?_, ?_, ?_⟩
    · exact ⟨fun _ => Or.inl hno, fun _ => ⟨"time column not found", hchk⟩⟩
    · intro _ _ _ _
      refine ⟨⟨fun _ => Or.inl hno, fun _ => ⟨_, hchk⟩⟩, fun hpre => absurd hpre.1 hno⟩
    · intro hyes _ _
      exact absurd hyes hno
  | some tc =>
    have hyes : ∃ c ∈ timeCandidates, c ∈ df.cols.map aliasName := by
      refine ⟨tc, List.mem_of_find?_eq_some hf, ?_⟩
      have := List.find?_some hf
      simpa using this
    by_cases htdup : 1 < (df.cols.map aliasName).count "time"
    · have hchk : calculate_indicators_checked df =
          Except.error (CalcError.duplicateLabel "time") := by
        rw [hunfold, hf, if_pos htdup]
      refine ⟨?_, ?_, ?_⟩
      · constructor
        · rintro ⟨e, he⟩
          rw [hchk] at he
          simp at he
        · rintro (h | ⟨hle, _⟩)
          · exact absurd hyes h
          · exact absurd hle (by omega)
      · intro h1 _ _ _
        exact absurd h1 (by omega)
      · intro _ _ _
        exact ⟨"time", hchk⟩
    · by_cases hempty :
          (requiredCols.filter (fun c => decide (c ∉ df.cols.map aliasName))).isEmpty = true
      · have hall : ∀ c ∈ requiredCols, c ∈ df.cols.map aliasName := by
          intro c hc
          have h0 := List.isEmpty_iff.mp hempty
          have h1 := List.filter_eq_nil_iff.mp h0 c hc
          simpa using h1
        by_cases hhl : 1 < (df.cols.map aliasName).count "high" ∨
            1 < (df.cols.map aliasName).count "low"
        · have hchk : calculate_indicators_checked df =
              Except.error (CalcError.duplicateLabel "hl_range") := by
            rw [hunfold, hf, if_neg htdup, if_pos hempty, if_pos hhl]
          refine ⟨?_, ?_, ?_⟩
          · constructor
            · rintro ⟨e, he⟩
              rw [hchk] at he
              simp at he
            · rintro (h | ⟨_, c, hcr, hcnot⟩)
              · exact absurd hyes h
              · exact absurd (hall c hcr) hcnot
          · intro _ hh hl _
            rcases hhl with h | h
            · exact absurd hh (by omega)
            · exact absurd hl (by omega)
          · intro _ _ _
            exact ⟨"hl_range", hchk⟩
        · by_cases hcl : 1 < (df.cols.map aliasName).count "close"
          · have hchk : calculate_indicators_checked df =
                Except.error (CalcError.duplicateLabel "roc") := by
              rw [hunfold, hf, if_neg htdup, if_pos hempty, if_neg hhl, if_pos hcl]
            refine ⟨?_, ?_, ?_⟩
            · constructor
              · rintro ⟨e, he⟩
                rw [hchk] at he
                simp at he
              · rintro (h | ⟨_, c, hcr, hcnot⟩)
                · exact absurd hyes h
                · exact absurd (hall c hcr) hcnot
            · intro _ _ _ hcle
              exact absurd hcle (by omega)
            · intro _ _ _
              exact ⟨"roc", hchk⟩
          · have hchk : calculate_indicators_checked df =
                Except.ok (calculate_indicators df.rows) := by
              rw [hunfold, hf, if_neg htdup, if_pos hempty, if_neg hhl, if_neg hcl]
            refine ⟨?_, ?_, ?_⟩
            · constructor
              · rintro ⟨e, he⟩
                rw [hchk] at he
                simp at he
              · rintro (h | ⟨_, c, hcr, hcnot⟩)
                · exact absurd hyes h
                · exact absurd (hall c hcr) hcnot
            · intro _ _ _ _
              refine ⟨⟨?_, ?_⟩, fun _ => hchk⟩
              · rintro ⟨e, he⟩
                rw [hchk] at he
                simp at he
              · rintro (h | ⟨c, hcr, hcnot⟩)
                · exact absurd hyes h
                · exact absurd (hall c hcr) hcnot
            · intro _ _ hdup
              rcases hdup with h | h | h | h
              · exact absurd h htdup
              · exact absurd (Or.inl h) hhl
              · exact absurd (Or.inr h) hhl
              · exact absurd h hcl
      · have hmiss : ∃ c ∈ requiredCols, c ∉ df.cols.map aliasName := by
          rcases hne : requiredCols.filter (fun c => decide (c ∉ df.cols.map aliasName)) with
            _ | ⟨c, rest⟩
          · rw [hne] at hempty; simp at hempty
          · have hcmem : c ∈ requiredCols.filter
                (fun c => decide (c ∉ df.cols.map aliasName)) := by
              rw [hne]; exact List.mem_cons_self _ _
            have hcm := List.mem_filter.mp hcmem
            exact ⟨c, hcm.1, by simpa using hcm.2⟩
        have hchk : calculate_indicators_checked df =
            Except.error (CalcError.schemaError "missing required columns") := by
          rw [hunfold, hf, if_neg htdup, if_neg hempty]
        refine ⟨?_, ?_, ?_⟩
        · exact ⟨fun _ => Or.inr ⟨by omega, hmiss⟩,
            fun _ => ⟨"missing required columns", hchk⟩⟩
        · intro _ _ _ _
          refine ⟨⟨fun _ => Or.inr hmiss, fun _ => ⟨_, hchk⟩⟩, ?_⟩
          rintro ⟨_, hall⟩
          obtain ⟨c, hcr, hcnot⟩ := hmiss
          exact absurd (hall c hcr) hcnot
        · intro _ hall _
          obtain ⟨c, hcr, hcnot⟩ := hmiss
          exact absurd (hall c hcr) hcnot

/-- Witness for the amended C8: a frame with collision-free short-code
aliases passes the gate and the computation returns a frame. -/
theorem schema_error_characterization_witness :
    ((["t", "h", "l", "c"].map aliasName).count "time" ≤ 1 ∧
      (["t", "h", "l", "c"].map aliasName).count "high" ≤ 1 ∧
      (["t", "h", "l", "c"].map aliasName).count "low" ≤ 1 ∧
      (["t", "h", "l", "c"].map aliasName).count "close" ≤ 1 ∧
      (∃ c ∈ timeCandidates, c ∈ (["t", "h", "l", "c"].map aliasName)) ∧
      (∀ c ∈ requiredCols, c ∈ (["t", "h", "l", "c"].map aliasName))) ∧
    calculate_indicators_checked (DataF.mk ["t", "h", "l", "c"] []) =
      Except.ok (calculate_indicators []) :=
  ⟨⟨by decide, by decide, by decide, by decide, by decide, by decide⟩,
    ((schema_error_characterization (DataF.mk ["t", "h", "l", "c"] [])).2.1
      (by decide) (by decide) (by decide) (by decide)).2 ⟨by decide, by decide⟩⟩

end CMEMonitor
